import Mathlib

/-!
# Formal model of `whatmp3.py` (whatmp3, version 3.8)

A shallow embedding of the task-dispatch and transcoding pipeline of
`whatmp3.py`.  Pure string/path manipulation is translated function by
function; the effectful parts (subprocess spawning, filesystem tests,
decoder output) are made explicit by passing the environment as data and
returning the performed effects as data.  `Option`/`Except` model Python
exceptions and `None` returns.
-/

namespace Whatmp3

/-! ### POSIX path helpers (`os.path` / `posixpath`) -/

/-- The characters after the last occurrence of `c` in `l`, or `none` when
`c` does not occur (the `str.rfind`-based slicing used by `posixpath`). -/
def afterLast (c : Char) (l : List Char) : Option (List Char) :=
  l.foldl (fun acc x => if x = c then some [] else acc.map (fun t => t ++ [x])) none

/-- Is the first list a prefix of the second?  (Kernel-reducible helper.) -/
def leadsWith : List Char → List Char → Bool
  | [], _ => true
  | _ :: _, [] => false
  | a :: as, b :: bs => a == b && leadsWith as bs

/-- `str.startswith` for a plain string argument. -/
def strStarts (s pre : String) : Bool := leadsWith pre.toList s.toList

/-- `str.endswith` for a plain string argument. -/
def strEnds (s sfx : String) : Bool := leadsWith sfx.toList.reverse s.toList.reverse

/-- `str.lower` (ASCII; the strings the program compares are ASCII). -/
def strLower (s : String) : String := String.mk (s.toList.map Char.toLower)

/-- `str.upper` (ASCII; the tag keys the program upper-cases are ASCII). -/
def strUpper (s : String) : String := String.mk (s.toList.map Char.toUpper)

/-- Drop trailing characters satisfying `p` (models `str.rstrip`). -/
def dropTrailingWhile (p : Char → Bool) (l : List Char) : List Char :=
  (l.reverse.dropWhile p).reverse

/-- `os.path.split` on POSIX: split at the last `'/'`; the head keeps no
trailing slashes unless it consists only of slashes. -/
def splitPath (p : String) : String × String :=
  let l := p.toList
  match afterLast '/' l with
  | none => ("", p)
  | some tail =>
    let headRaw := l.take (l.length - tail.length)
    let headStripped :=
      if !headRaw.isEmpty && headRaw.any (fun c => c != '/') then
        dropTrailingWhile (fun c => c == '/') headRaw
      else headRaw
    (String.mk headStripped, String.mk tail)

/-- `os.path.join` on POSIX for two components. -/
def osJoin (a b : String) : String :=
  if strStarts b "/" then b
  else if a = "" ∨ strEnds a "/" then a ++ b
  else a ++ "/" ++ b

/-- The extension of a path basename: from the last `'.'`, provided some
earlier character of the basename is not a `'.'` (so dotfiles like
`".flac"` have no extension), as in `posixpath.splitext`. -/
def extOfBase (base : List Char) : List Char :=
  let lead := base.takeWhile (fun c => c == '.')
  let rest := base.drop lead.length
  match afterLast '.' rest with
  | none => []
  | some t => '.' :: t

/-- `os.path.splitext` on POSIX. -/
def splitext (p : String) : String × String :=
  let l := p.toList
  let base := (afterLast '/' l).getD l
  let ext := extOfBase base
  (String.mk (l.take (l.length - ext.length)), String.mk ext)

/-! ### `change_format_name` -/

/-- Does the 4-character window match `FLAC` or `AIFF` case-insensitively?
(The regex `re.compile("FLAC|AIFF", re.IGNORECASE)`.) -/
def isMarker (c1 c2 c3 c4 : Char) : Bool :=
  (c1.toLower == 'f' && c2.toLower == 'l' && c3.toLower == 'a' && c4.toLower == 'c') ||
  (c1.toLower == 'a' && c2.toLower == 'i' && c3.toLower == 'f' && c4.toLower == 'f')

/-- `flacre.search`: does the string contain a `FLAC`/`AIFF` marker? -/
def flacSearch : List Char → Bool
  | c1 :: c2 :: c3 :: c4 :: rest => isMarker c1 c2 c3 c4 || flacSearch (c2 :: c3 :: c4 :: rest)
  | _ => false

/-- `flacre.sub(codec, s)`: replace every non-overlapping, leftmost-first
occurrence of the case-insensitive `FLAC`/`AIFF` marker by `codec`. -/
def flacSub (codec : List Char) : List Char → List Char
  | c1 :: c2 :: c3 :: c4 :: rest =>
    if isMarker c1 c2 c3 c4 then codec ++ flacSub codec rest
    else c1 :: flacSub codec (c2 :: c3 :: c4 :: rest)
  | l => l

/-- `change_format_name(file_fullpath, codec)`: replace the `FLAC`/`AIFF`
marker in the immediate parent directory name by `codec`, or append
`" (codec)"` to it when no marker occurs. -/
def changeFormatName (fileFullpath codec : String) : String :=
  let dirFile := splitPath fileFullpath
  let leadLast := splitPath dirFile.1
  if flacSearch leadLast.2.toList then
    osJoin (osJoin leadLast.1 (String.mk (flacSub codec.toList leadLast.2.toList))) dirFile.2
  else
    osJoin (osJoin leadLast.1 (leadLast.2 ++ " (" ++ codec ++ ")")) dirFile.2

/-! ### Tag extraction (`tags_from_file`)

The decoder subprocess is modelled by its observable behaviour: the list of
lines it printed on stdout.  `tags_from_file` is then a pure function of
those lines. -/

/-- A Tag Map; insertion prepends, so `lookupTag` sees the most recent
binding first, matching Python dict assignment (`tags[k] = v`). -/
abbrev Tags := List (String × String)

/-- Dictionary lookup: the most recently inserted binding for `key`. -/
def lookupTag : Tags → String → Option String
  | [], _ => none
  | (k, v) :: rest, key => if k = key then some v else lookupTag rest key

/-- The fixed tag set `copy_tags`. -/
def copyTags : List String := ["TITLE", "ALBUM", "ARTIST", "GENRE", "COMMENT", "DATE", "TRACK"]

/-- `str.split(sep)` for a one-character separator: splits on EVERY
occurrence (Python `line.split("=")`). -/
def splitOnChar (sep : Char) : List Char → List (List Char)
  | [] => [[]]
  | c :: rest =>
    if c = sep then [] :: splitOnChar sep rest
    else
      match splitOnChar sep rest with
      | [] => [[c]]
      | h :: t => (c :: h) :: t

/-- `value.replace(':', '-').replace('/', '-')`. -/
def sanitizeTagValue (v : String) : String :=
  String.mk (v.toList.map (fun c => if c = ':' ∨ c = '/' then '-' else c))

/-- The loop body of `tags_from_file`: split the line on every `'='`; keep
it only when that yields exactly two parts and the upper-cased key is in
`copy_tags`; store the upper-cased key with the sanitized value. -/
def tagStep (tags : Tags) (line : String) : Tags :=
  match (splitOnChar '=' line.toList).map String.mk with
  | [k, v] => if strUpper k ∈ copyTags then (strUpper k, sanitizeTagValue v) :: tags else tags
  | _ => tags

/-- `tags_from_file`, as a function of the decoder's stdout lines. -/
def tagsFromLines (lines : List String) : Tags := lines.foldl tagStep []

/-! ### The Rename Engine (`filename_from_tags`) -/

/-- The `placeholders` dict: `none` models "not a key of the dict"; the
empty string models the structural placeholders `f` and `d`, whose dict
value is `''`. -/
def tagOfPlaceholder : String → Option String
  | "n" => some "TRACK"
  | "t" => some "TITLE"
  | "a" => some "ARTIST"
  | "f" => some ""
  | "d" => some ""
  | _ => none

/-- A regex word character (`\w`), restricted to ASCII as used here. -/
def isWordChar (c : Char) : Bool := c.isAlphanum || c == '_'

/-- Split a leading run of word characters from the rest. -/
def wordSpan : List Char → List Char × List Char
  | [] => ([], [])
  | c :: rest =>
    if isWordChar c then
      let p := wordSpan rest
      (c :: p.1, p.2)
    else ([], c :: rest)

/-- The scan of `re.finditer(r"(%\w+%)", pattern)` together with the
`pattern[index:match.start()]` slicing of `filename_from_tags`: the result
is the list of (literal text before the match, placeholder body) pairs and
the literal tail after the last match.  A `%` matches when a nonempty run
of word characters follows it, closed by another `%`; otherwise scanning
resumes at the next character, as the regex engine does. -/
def scanAux (acc : List Char) : List Char → List (String × String) × String
  | [] => ([], String.mk acc.reverse)
  | c :: rest =>
    if c = '%' then
      match h : wordSpan rest with
      | ([], _) => scanAux (c :: acc) rest
      | (_ :: _, []) => scanAux (c :: acc) rest
      | (w1 :: ws, n :: rest2) =>
        if n = '%' then
          let p := scanAux [] rest2
          ((String.mk acc.reverse, String.mk (w1 :: ws)) :: p.1, p.2)
        else scanAux (c :: acc) rest
    else scanAux (c :: acc) rest
termination_by l => l.length
decreasing_by
  · simp
  · simp
  · have hl : ∀ l : List Char, (wordSpan l).2.length ≤ l.length := by
      intro l
      induction l with
      | nil => simp [wordSpan]
      | cons c3 rest3 ih =>
        simp only [wordSpan]
        split
        · exact Nat.le_succ_of_le ih
        · simp
    have hw := hl rest
    rw [h] at hw
    simp only [List.length_cons] at hw ⊢
    omega
  · simp
  · simp

/-- `scanAux` from an empty literal accumulator. -/
def scanPattern (pattern : String) : List (String × String) × String := scanAux [] pattern.toList

/-- Failure modes of the rename pipeline.  `noTags`, `unknownPlaceholder`
and `missingTag` are the explicit `return None` paths of
`filename_from_tags`; `keyError` and `formatError` model the exceptions the
final `new_filename % tags` formatting pass can raise (`KeyError`
respectively `ValueError`/`TypeError`). -/
inductive RenameErr where
  | noTags
  | unknownPlaceholder (pl : String)
  | missingTag (tag : String)
  | keyError (key : String)
  | formatError
deriving DecidableEq

/-- The placeholder loop of `filename_from_tags`: for each (literal, body)
pair, the literal is appended RAW (only the tail after the last match is
percent-escaped), an unknown body or a missing tag aborts with `None`, a
tag-backed body inserts the `%(TAG)s` conversion, `f` inserts the filename
and `d` the final segment of `dirname`. -/
def processSegments (tags : Tags) (dirname filename : String) :
    List (String × String) → Except RenameErr String
  | [] => .ok ""
  | (lit, pl) :: rest =>
    match tagOfPlaceholder pl with
    | none => .error (.unknownPlaceholder pl)
    | some tagName =>
      if tagName ≠ "" then
        if (lookupTag tags tagName).isSome then
          match processSegments tags dirname filename rest with
          | .error e => .error e
          | .ok s => .ok (lit ++ "%(" ++ tagName ++ ")s" ++ s)
        else .error (.missingTag tagName)
      else
        match processSegments tags dirname filename rest with
        | .error e => .error e
        | .ok s => .ok (lit ++ (if pl = "f" then filename else (splitPath dirname).2) ++ s)

/-- `escape_percent`: `re.sub('%', '%%', pattern)`. -/
def escapePercentList : List Char → List Char
  | [] => []
  | c :: rest =>
    if c = '%' then '%' :: '%' :: escapePercentList rest
    else c :: escapePercentList rest

/-- `escape_percent` on strings. -/
def escapePercent (s : String) : String := String.mk (escapePercentList s.toList)

mutual
/-- The final `new_filename % tags` pass: Python printf-style formatting of
the built string against the Tag Map.  `%%` yields a literal percent and
`%(KEY)s` substitutes a tag value (`KeyError` when absent) — the only two
forms the code intentionally builds.  Any other conversion after a `%`
(which can only come from unescaped literal text) is modelled as
`formatError`; CPython raises `ValueError` or `TypeError` on the concrete
inputs considered in the theorems below.  `%` at the end of the string is
the "incomplete format" error. -/
def pyFormat (tags : Tags) : List Char → Except RenameErr (List Char)
  | [] => .ok []
  | c :: rest =>
    if c = '%' then
      match rest with
      | [] => .error .formatError
      | c2 :: rest2 =>
        if c2 = '%' then
          match pyFormat tags rest2 with
          | .error e => .error e
          | .ok r => .ok ('%' :: r)
        else if c2 = '(' then pyFormatKey tags [] rest2
        else .error .formatError
    else
      match pyFormat tags rest with
      | .error e => .error e
      | .ok r => .ok (c :: r)
termination_by l => l.length
decreasing_by
  · simp only [List.length_cons]
    omega
  · simp only [List.length_cons]
    omega
  · simp only [List.length_cons]
    omega

/-- The mapping-key scanner of the formatting pass: accumulate the key up
to the closing `')'` (running out of characters is the "incomplete format
key" error), then require the `s` conversion and substitute the looked-up
value, `KeyError` when the key is absent. -/
def pyFormatKey (tags : Tags) (key : List Char) : List Char → Except RenameErr (List Char)
  | [] => .error .formatError
  | c :: rest =>
    if c = ')' then
      match rest with
      | 's' :: rest2 =>
        match lookupTag tags (String.mk key) with
        | none => .error (.keyError (String.mk key))
        | some v =>
          match pyFormat tags rest2 with
          | .error e => .error e
          | .ok r => .ok (v.toList ++ r)
      | _ => .error .formatError
    else pyFormatKey tags (key ++ [c]) rest
termination_by l => l.length
decreasing_by
  · simp only [List.length_cons]
    omega
  · simp only [List.length_cons]
    omega
end

/-- `filename_from_tags(pattern, tags, dirname, filename)`.  Mirrors the
source: scan the pattern, process the matches, percent-escape only the
tail after the last match, re-append the source extension when the built
name's extension differs, then apply the `%` formatting pass. -/
def filenameFromTags (pattern : String) (tags : Option Tags) (dirname filename : String) :
    Except RenameErr String :=
  match tags with
  | none => .error .noTags
  | some tags =>
    let st := scanPattern pattern
    match processSegments tags dirname filename st.1 with
    | .error e => .error e
    | .ok nf0 =>
      let nf1 := nf0 ++ escapePercent st.2
      let nf2 := if (splitext filename).2 ≠ (splitext nf1).2 then nf1 ++ (splitext filename).2 else nf1
      match pyFormat tags nf2.toList with
      | .error e => .error e
      | .ok out => .ok (String.mk out)

/-- `do_rename(rename_pattern, dirname, filename)`, as a function of the
decoder's stdout lines for the file.  The first component records that the
missing-TRACK diagnostic was printed (`failure(1, ...)` — note the source
does NOT return there); the second is the `filename_from_tags` result
(`.error` models the `None` return / an exception).
`placeholders['n'] = "TRACK"`. -/
def doRename (decoderLines : List String) (rename_pattern dirname filename : String) :
    Bool × Except RenameErr String :=
  let pat := if rename_pattern = "" then osJoin "%d%" "%f%" else rename_pattern
  let tags := tagsFromLines decoderLines
  ((lookupTag tags "TRACK").isNone, filenameFromTags pat (some tags) dirname filename)

/-! ### Configuration (`setup_parser` destinations)

The argparse namespace, as read by the pipeline.  String options default to
`""`, modelling the falsy defaults (`False` / unset); the code only ever
tests their truthiness or uses their string value. -/

structure Opts where
  verbose : Bool := false
  notorrent : Bool := false
  original : Bool := false
  ignore : Bool := false
  silent : Bool := false
  skipgenre : Bool := false
  nodate : Bool := false
  nolog : Bool := false
  nocue : Bool := false
  nodots : Bool := false
  overwrite : Bool := false
  copyother : Bool := true
  additional : String := ""
  tracker : String := ""
  output : String := ""
  torrent_dir : String := ""
  rename : String := ""
  root_dir : String := ""
  max_threads : Nat := 1
deriving DecidableEq

/-! ### Encoding descriptors (`enc_opts`) -/

structure EncOpt where
  ext : String
  opts : List String
deriving DecidableEq

/-- The `enc_opts` dict; `none` models a `KeyError`. -/
def encOptsLookup : String → Option EncOpt
  | "320" => some ⟨".mp3", ["-b:a", "320k"]⟩
  | "V0" => some ⟨".mp3", ["-q:a", "0"]⟩
  | "V2" => some ⟨".mp3", ["-q:a", "2"]⟩
  | "V8" => some ⟨".mp3", ["-q:a", "8"]⟩
  | "Q8" => some ⟨".ogg", ["-c:a", "libvorbis", "-qscale:a", "8"]⟩
  | "AAC" => some ⟨".m4a", ["-c:a", "aac", "-b:a", "320k", "-movflags", "+faststart"]⟩
  | "ALAC" => some ⟨".m4a", ["-c:a", "alac"]⟩
  | "FLAC" => some ⟨".flac", ["-c:a", "flac", "-compression_level", "8", "-sample_fmt", "s16", "-ar", "44100"]⟩
  | "WAV" => some ⟨".wav", []⟩
  | "AIFF" => some ⟨".aiff", ["-map_metadata", "0", "-write_id3v2", "1"]⟩
  | _ => none

/-! ### `TranscodeTask.execute`

The filesystem and the two subprocesses are explicit: `FsEnv` supplies what
the environment would answer, `ExecEffects` records what the task did.
`none` models an unhandled exception (the thread-pool future swallows it). -/

structure TranscodeTask where
  source : String
  destination : String
  codec : String
  rename_pattern : String
deriving DecidableEq

structure FsEnv where
  /-- stdout lines of the metadata decoder for a given file. -/
  decoderLines : String → List String
  /-- `os.path.exists`. -/
  pathExists : String → Bool
  /-- exit status of the spawned encoder; note `execute` never reads it. -/
  encoderExitCode : Int

structure ExecEffects where
  /-- the value `execute` returns (1 on the exists-skip path, else 0). -/
  result : Int
  /-- directories passed to `os.makedirs(..., exist_ok=True)`. -/
  dirsMade : List String
  /-- argument vectors of subprocesses spawned by the task. -/
  spawned : List (List String)
  /-- files written directly by the task itself (not by the encoder). -/
  filesWritten : List String
deriving DecidableEq

/-- `TranscodeTask.execute(opts, lock)`.  Rename, restructure, swap in the
codec extension, make the destination directory, skip (returning 1) when
the destination exists and overwrite is off, else spawn the encoder and
return 0.  The exit status is never consulted and no sentinel file is ever
written.  A failed rename propagates as an exception
(`os.path.join(..., None)` raises `TypeError`), modelled by `none`. -/
def TranscodeTask.execute (t : TranscodeTask) (opts : Opts) (env : FsEnv) : Option ExecEffects :=
  let sp := splitPath t.source
  match (doRename (env.decoderLines t.source) t.rename_pattern sp.1 sp.2).2 with
  | .error _ => none
  | .ok destFilename =>
    let destFullpath0 := osJoin t.destination destFilename
    let destFullpath1 := changeFormatName destFullpath0 t.codec
    match encOptsLookup t.codec with
    | none => none
    | some enc =>
      let destFullpath := (splitext destFullpath1).1 ++ enc.ext
      let made := [(splitPath destFullpath).1]
      if env.pathExists destFullpath && !opts.overwrite then
        some { result := 1, dirsMade := made, spawned := [], filesWritten := [] }
      else
        some { result := 0, dirsMade := made,
               spawned := [["ffmpeg", "-hide_banner", "-v", "warning", "-stats", "-i", t.source]
                 ++ enc.opts ++ [destFullpath]],
               filesWritten := [] }

/-! ### Task dispatch (`task_dispatch`) -/

/-- A dispatched task descriptor as constructed by `task_dispatch` (the
constructor arguments of `TranscodeTask` / `CopyTask`). -/
inductive DTask where
  | transcodeT (source destination codec rename_pattern : String)
  | copyT (source destination codec rename_pattern : String)
deriving DecidableEq

/-- The rename pattern captured by a dispatched task. -/
def DTask.patternOf : DTask → String
  | .transcodeT _ _ _ p => p
  | .copyT _ _ _ p => p

/-- `task_dispatch(filename_fullpath, ...)`: `fnmatch(p.lower(), "*.flac")`
on the full path is exactly "the lowered path ends with `.flac`" (the
translated regex is `.*\.flac` anchored at the end), likewise `.aiff`.
Matching files become Transcode tasks, everything else Copy tasks; the
`nolog`/`nocue`/`nodots` options are never consulted here or anywhere. -/
def task_dispatch (filename_fullpath codec : String) (opts : Opts) : DTask :=
  if strEnds (strLower filename_fullpath) ".flac" || strEnds (strLower filename_fullpath) ".aiff" then
    .transcodeT filename_fullpath opts.output codec opts.rename
  else
    .copyT filename_fullpath opts.output codec opts.rename

/-- `is_audio_file`. -/
def is_audio_file (filename : String) : Bool :=
  [".mp3", ".flac", ".m4a", ".wav", ".aiff", ".ogg"].contains (strLower (splitext filename).2)

/-! ### The playlist enumerator (`parse_m3u`) -/

structure M3uEnv where
  /-- `os.path.exists`. -/
  pathExists : String → Bool
  /-- `os.path.isfile`. -/
  isFile : String → Bool

/-- `line.rstrip("\r\n")`. -/
def rstripNewlines (s : String) : String :=
  String.mk (dropTrailingWhile (fun c => c == '\r' || c == '\n') s.toList)

/-- The loop body of `parse_m3u`: skip `#` comments, non-audio entries and
missing files; otherwise set `opts.rename` to `"%f%"` when it is falsy and
dispatch the track with the updated options.  (File iteration never yields
an empty string, so `line[0]` is modelled by `head?`.) -/
def m3uStep (env : M3uEnv) (codec : String) (st : Opts × List DTask) (line : String) :
    Opts × List DTask :=
  if line.toList.head? = some '#' then st
  else
    let track := rstripNewlines line
    if !is_audio_file track then st
    else if !(env.pathExists track && env.isFile track) then st
    else
      let o := if st.1.rename ≠ "" then st.1 else { st.1 with rename := "%f%" }
      (o, st.2 ++ [task_dispatch track codec o])

/-- `parse_m3u`, as a function of the playlist's lines, returning the
mutated options together with the dispatched tasks in order. -/
def parse_m3u (env : M3uEnv) (lines : List String) (codec : String) (opts : Opts) :
    Opts × List DTask :=
  lines.foldl (m3uStep env codec) (opts, [])

/-- The filter of `parse_m3u`'s loop: does a playlist line survive the
comment, audio-file and existence checks and get dispatched?  (Mirrors the
guard structure of `m3uStep`.) -/
def m3uPass (env : M3uEnv) (line : String) : Bool :=
  if line.toList.head? = some '#' then false
  else if !is_audio_file (rstripNewlines line) then false
  else if !(env.pathExists (rstripNewlines line) && env.isFile (rstripNewlines line)) then false
  else true

/-! ### The collection enumerator (`parse_xml_playlists`) -/

/-- A PLAYLISTS node: `Type="0"` is a folder with child nodes, anything
else a playlist whose children carry `Key` track references. -/
inductive PNode where
  | folder (children : List PNode)
  | playlist (name : String) (trackKeys : List String)

/-- `pathlib.PurePosixPath(...).parts` of a location URL, modulo the root
component: the nonempty `'/'`-separated components.  The code only uses
`parts[3:]` of `file://host/...` locations, for which this agrees. -/
def pathParts (s : String) : List String :=
  ((splitOnChar '/' s.toList).map String.mk).filter (fun x => x ≠ "")

/-- `str(Path(root).joinpath(Path(*parts)))` for a nonempty `root`. -/
def joinParts (root : String) (parts : List String) : String :=
  parts.foldl (fun a b => a ++ "/" ++ b) root

/-- One hex digit of a percent-escape. -/
def hexVal (c : Char) : Option Nat :=
  if '0' ≤ c ∧ c ≤ '9' then some (c.toNat - '0'.toNat)
  else if 'a' ≤ c ∧ c ≤ 'f' then some (c.toNat - 'a'.toNat + 10)
  else if 'A' ≤ c ∧ c ≤ 'F' then some (c.toNat - 'A'.toNat + 10)
  else none

/-- `urllib.parse.unquote` restricted to single-byte escapes (multi-byte
UTF-8 sequences are not recombined; no theorem below depends on the decoded
value). -/
def unquoteList : List Char → List Char
  | '%' :: a :: b :: rest =>
    match hexVal a, hexVal b with
    | some ha, some hb => Char.ofNat (16 * ha + hb) :: unquoteList rest
    | _, _ => '%' :: unquoteList (a :: b :: rest)
  | c :: rest => c :: unquoteList rest
  | [] => []

/-- `unquote` on strings. -/
def unquote (s : String) : String := String.mk (unquoteList s.toList)

/-- The playlist branch of `parse_xml_playlists`: for each track reference,
resolve the `Key` in the COLLECTION (`none` models the `AttributeError`
when the track is missing), compute the relocated path — the source
crashes with a `TypeError` (`Path` slicing) when `root_dir` is falsy,
modelled by `none` — then set `opts.rename` to `"<playlist name>/%f%"` and
dispatch the URL-decoded path with the updated options. -/
def parseXmlTracks (coll : String → Option String) (codec name : String) :
    List String → Opts → List DTask → Option (Opts × List DTask)
  | [], o, ts => some (o, ts)
  | key :: rest, o, ts =>
    match coll key with
    | none => none
    | some loc =>
      if o.root_dir ≠ "" then
        let tp := joinParts o.root_dir ((pathParts loc).drop 3)
        let o2 := { o with rename := name ++ "/%f%" }
        parseXmlTracks coll codec name rest o2 (ts ++ [task_dispatch (unquote tp) codec o2])
      else none

mutual
/-- `parse_xml_playlists(node, collection_root, ...)`: recurse through
folders, enumerate playlists. -/
def parse_xml_playlists (coll : String → Option String) (codec : String) :
    PNode → Opts → List DTask → Option (Opts × List DTask)
  | .folder children, o, ts => parseXmlChildren coll codec children o ts
  | .playlist name keys, o, ts => parseXmlTracks coll codec name keys o ts

/-- The `for child in node` loop of the folder branch. -/
def parseXmlChildren (coll : String → Option String) (codec : String) :
    List PNode → Opts → List DTask → Option (Opts × List DTask)
  | [], o, ts => some (o, ts)
  | n :: rest, o, ts =>
    match parse_xml_playlists coll codec n o ts with
    | none => none
    | some p => parseXmlChildren coll codec rest p.1 p.2
end

/-! ### Source selection in `main` -/

inductive SourceKind where
  | playlist
  | xmlDoc
  | folder
deriving DecidableEq

/-- The enumerator chosen by `main` for one positional source: note the
comparison `extension in ("m3u", "m3u8")` against `os.path.splitext`'s
extension, which includes the leading dot. -/
def selectEnumerator (source_dir : String) : SourceKind :=
  let extension := (splitext source_dir).2
  if extension = "m3u" ∨ extension = "m3u8" then .playlist
  else if extension = ".xml" then .xmlDoc
  else .folder

/-! ### Reference definitions used to state the claims

These do not model source code; they state what a claim or the spec says,
for comparison with the functions above. -/

/-- The printf-format string `processSegments` builds on success (literal
text raw, `%(TAG)s` conversions, `f`/`d` substituted). -/
def buildFormat (dirname filename : String) : List (String × String) → String
  | [] => ""
  | (lit, pl) :: rest =>
    lit ++ (match tagOfPlaceholder pl with
            | some t =>
              if t ≠ "" then "%(" ++ t ++ ")s"
              else if pl = "f" then filename else (splitPath dirname).2
            | none => "")
        ++ buildFormat dirname filename rest

/-- Reference renderer: every placeholder fully substituted by its tag
value (respectively the filename / directory basename), literal text
copied verbatim. -/
def renderSegments (tags : Tags) (dirname filename : String) : List (String × String) → String
  | [] => ""
  | (lit, pl) :: rest =>
    lit ++ (match tagOfPlaceholder pl with
            | some t =>
              if t ≠ "" then (lookupTag tags t).getD ""
              else if pl = "f" then filename else (splitPath dirname).2
            | none => "")
        ++ renderSegments tags dirname filename rest

/-- The fully substituted filename the successful path of
`filename_from_tags` produces, extension re-appending included. -/
def renderedFilename (tags : Tags) (dirname filename pattern : String) : String :=
  let st := scanPattern pattern
  let body := renderSegments tags dirname filename st.1 ++ st.2
  let nf1 := buildFormat dirname filename st.1 ++ escapePercent st.2
  if (splitext filename).2 ≠ (splitext nf1).2 then body ++ (splitext filename).2 else body

/-- Modelled from the spec: "Parses each line by splitting on the first
`=`" — the split-once reading of `tags_from_file` that claim C6 describes,
used to exhibit how it diverges from the implementation. -/
def splitFirstOnChar (sep : Char) : List Char → Option (List Char × List Char)
  | [] => none
  | c :: rest =>
    if c = sep then some ([], rest)
    else (splitFirstOnChar sep rest).map (fun p => (c :: p.1, p.2))

/-- Modelled from the spec: the per-line step under split-on-first-`=`. -/
def tagStepSpec (tags : Tags) (line : String) : Tags :=
  match splitFirstOnChar '=' line.toList with
  | some (k, v) =>
    let ks := strUpper (String.mk k)
    if ks ∈ copyTags then (ks, sanitizeTagValue (String.mk v)) :: tags else tags
  | none => tags

/-- Modelled from the spec: `tags_from_file` under split-on-first-`=`. -/
def tagsFromLinesSpec (lines : List String) : Tags := lines.foldl tagStepSpec []

/-- Modelled from the spec: the exclusion the `nolog`/`nocue`/`nodots`
flags promise — log files, cue sheets and dotfiles excluded when the
corresponding flag is set. -/
def specExcluded (opts : Opts) (path : String) : Bool :=
  (opts.nolog && strEnds (strLower path) ".log") ||
  (opts.nocue && strEnds (strLower path) ".cue") ||
  (opts.nodots && strStarts (splitPath path).2 ".")

-- Behavioural cross-checks of the embedding against the Python source
-- (hand-traced outputs of the corresponding functions).
example : changeFormatName "/music/Artist/Album (FLAC)/01.flac" "V2" = "/music/Artist/Album (V2)/01.flac" := by decide
example : changeFormatName "a/Album/f.flac" "V2" = "a/Album (V2)/f.flac" := by decide
example : changeFormatName "a/Album (V2)/f.flac" "V2" = "a/Album (V2) (V2)/f.flac" := by decide
example : scanPattern "%d%/%f%" = ([("", "d"), ("/", "f")], "") := by
  simp [scanPattern, scanAux, wordSpan, isWordChar]
example : filenameFromTags "%d%/%n% - %t%" (some [("TRACK", "3"), ("TITLE", "Intro")]) "/music/Album" "x.flac" = .ok "Album/3 - Intro.flac" := by
  simp [filenameFromTags, scanPattern, scanAux, wordSpan, isWordChar, processSegments,
    tagOfPlaceholder, lookupTag, splitPath, splitext, extOfBase, afterLast, dropTrailingWhile,
    escapePercent, escapePercentList, pyFormat, pyFormatKey]
example : filenameFromTags "%x%" (some []) "d" "f.flac" = .error (.unknownPlaceholder "x") := by
  simp [filenameFromTags, scanPattern, scanAux, wordSpan, isWordChar, processSegments,
    tagOfPlaceholder]
example : filenameFromTags "%n%" (some [("TITLE", "a")]) "d" "f.flac" = .error (.missingTag "TRACK") := by
  simp [filenameFromTags, scanPattern, scanAux, wordSpan, isWordChar, processSegments,
    tagOfPlaceholder, lookupTag]
example : filenameFromTags "100% zoom %t%" (some [("TITLE", "x")]) "d" "f.flac" = .error .formatError := by
  simp [filenameFromTags, scanPattern, scanAux, wordSpan, isWordChar, processSegments,
    tagOfPlaceholder, lookupTag, splitPath, splitext, extOfBase, afterLast, dropTrailingWhile,
    escapePercent, escapePercentList, pyFormat, pyFormatKey]
example : tagsFromLines ["TITLE=a=b"] = [] := by decide
example : tagsFromLines ["title=Foo:Bar/Baz"] = [("TITLE", "Foo-Bar-Baz")] := by decide
example : tagsFromLinesSpec ["TITLE=a=b"] = [("TITLE", "a=b")] := by decide
example : doRename ["TITLE=X"] "%f%" "a" "01.flac" = (true, .ok "01.flac") := by
  simp [doRename, tagsFromLines, tagStep, splitOnChar, strUpper, copyTags, sanitizeTagValue,
    lookupTag, filenameFromTags, scanPattern, scanAux, wordSpan, isWordChar, processSegments,
    tagOfPlaceholder, splitPath, splitext, extOfBase, afterLast, dropTrailingWhile,
    escapePercent, escapePercentList, pyFormat, pyFormatKey]
example :
    TranscodeTask.execute ⟨"a/01.flac", "out", "V0", ""⟩ {} ⟨fun _ => ["TRACK=1"], fun _ => true, 0⟩ =
      some ⟨1, ["out/a (V0)"], [], []⟩ := by
  simp [TranscodeTask.execute, doRename, tagsFromLines, tagStep, splitOnChar, strUpper, copyTags,
    sanitizeTagValue, lookupTag, filenameFromTags, scanPattern, scanAux, wordSpan, isWordChar,
    processSegments, tagOfPlaceholder, splitPath, splitext, extOfBase, afterLast,
    dropTrailingWhile, escapePercent, escapePercentList, pyFormat, pyFormatKey, osJoin,
    strStarts, strEnds, strLower, leadsWith, changeFormatName, flacSearch, flacSub, isMarker,
    encOptsLookup]
example :
    TranscodeTask.execute ⟨"a/01.flac", "out", "V0", ""⟩ {} ⟨fun _ => ["TRACK=1"], fun _ => false, 1⟩ =
      some ⟨0, ["out/a (V0)"], [["ffmpeg", "-hide_banner", "-v", "warning", "-stats", "-i", "a/01.flac", "-q:a", "0", "out/a (V0)/01.mp3"]], []⟩ := by
  simp [TranscodeTask.execute, doRename, tagsFromLines, tagStep, splitOnChar, strUpper, copyTags,
    sanitizeTagValue, lookupTag, filenameFromTags, scanPattern, scanAux, wordSpan, isWordChar,
    processSegments, tagOfPlaceholder, splitPath, splitext, extOfBase, afterLast,
    dropTrailingWhile, escapePercent, escapePercentList, pyFormat, pyFormatKey, osJoin,
    strStarts, strEnds, strLower, leadsWith, changeFormatName, flacSearch, flacSub, isMarker,
    encOptsLookup]

/-! ## Claim C1 — idempotence of `change_format_name` -/

/-- C1 (counterexample): restructuring is NOT idempotent.  With label
`V2`, `"a/Album/f.flac"` restructures to `"a/Album (V2)/f.flac"`, and a
second application appends the label again, because `"Album (V2)"` does
not match the fixed `FLAC|AIFF` regex (the replacement does not match the
existing label, contrary to the claim). -/
theorem c1_restructure_not_idempotent :
    changeFormatName (changeFormatName "a/Album/f.flac" "V2") "V2" ≠
      changeFormatName "a/Album/f.flac" "V2" := by decide

/-- C1 (amended): restructuring a path is a no-op — hence a second
application with the same label changes nothing — exactly in the situation
where the parent directory name still matches the `FLAC|AIFF` marker and
is a fixed point of the marker substitution (and the split components
re-join to the path); e.g. the label `FLAC` on a marker-bearing directory.
For labels without a marker (all built-in labels except `FLAC`/`AIFF`) the
second application appends ` (label)` again. -/
theorem c1_restructure_fixed_point (p codec : String)
    (hsearch : flacSearch (splitPath (splitPath p).1).2.toList = true)
    (hsub : String.mk (flacSub codec.toList (splitPath (splitPath p).1).2.toList) =
      (splitPath (splitPath p).1).2)
    (hjoin : osJoin (osJoin (splitPath (splitPath p).1).1 (splitPath (splitPath p).1).2)
      (splitPath p).2 = p) :
    changeFormatName p codec = p := by
  simp only [changeFormatName, hsearch, if_true, hsub, hjoin]

/-- C1 (witness for the amended theorem): the once-restructured path
`"a/Album (FLAC)/f.flac"` is a fixed point under the label `FLAC`. -/
theorem c1_restructure_fixed_point_witness :
    changeFormatName "a/Album (FLAC)/f.flac" "FLAC" = "a/Album (FLAC)/f.flac" :=
  c1_restructure_fixed_point "a/Album (FLAC)/f.flac" "FLAC" (by decide) (by decide) (by decide)

/-! ## Claim C2 — sentinel file on encoder failure -/

/-- C2 (counterexample): a task whose encoder exits with status 1 (the
environment's `encoderExitCode`) still returns 0 and writes no file at
all — in particular no `FAILURE` sentinel: `execute` never inspects the
exit status and contains no sentinel-writing code. -/
theorem c2_no_sentinel_on_failure :
    (⟨fun _ => ["TRACK=1"], fun _ => false, 1⟩ : FsEnv).encoderExitCode ≠ 0 ∧
    TranscodeTask.execute ⟨"a/01.flac", "out", "V0", ""⟩ {}
        ⟨fun _ => ["TRACK=1"], fun _ => false, 1⟩ =
      some ⟨0, ["out/a (V0)"],
        [["ffmpeg", "-hide_banner", "-v", "warning", "-stats", "-i", "a/01.flac",
          "-q:a", "0", "out/a (V0)/01.mp3"]], []⟩ := by
  constructor
  · decide
  · simp [TranscodeTask.execute, doRename, tagsFromLines, tagStep, splitOnChar, strUpper,
      copyTags, sanitizeTagValue, lookupTag, filenameFromTags, scanPattern, scanAux, wordSpan,
      isWordChar, processSegments, tagOfPlaceholder, splitPath, splitext, extOfBase, afterLast,
      dropTrailingWhile, escapePercent, escapePercentList, pyFormat, pyFormatKey, osJoin,
      strStarts, strEnds, strLower, leadsWith, changeFormatName, flacSearch, flacSub, isMarker,
      encOptsLookup]

/-- C2 (amended): `execute` never consults the encoder's exit status —
its outcome is invariant under changing `encoderExitCode` — and whenever
it completes it writes no file itself (so never a `FAILURE` sentinel),
returning 0 on every path that spawns the encoder. -/
theorem c2_exit_status_ignored (t : TranscodeTask) (opts : Opts) (env : FsEnv) (e : Int)
    (eff : ExecEffects) (h : t.execute opts env = some eff) :
    t.execute opts { env with encoderExitCode := e } = some eff ∧
    eff.filesWritten = [] ∧ (eff.spawned ≠ [] → eff.result = 0) := by
  have hinv : t.execute opts { env with encoderExitCode := e } = t.execute opts env := rfl
  refine ⟨hinv.trans h, ?_⟩
  rcases hdr : (doRename (env.decoderLines t.source) t.rename_pattern (splitPath t.source).1
      (splitPath t.source).2).2 with err | d
  · simp [TranscodeTask.execute, hdr] at h
  · rcases henc : encOptsLookup t.codec with _ | enc
    · simp [TranscodeTask.execute, hdr, henc] at h
    · simp only [TranscodeTask.execute, hdr, henc] at h
      split at h <;>
      · injection h with h2
        subst h2
        constructor <;> simp

/-- C2 (witness for the amended theorem), at the counterexample input with
the exit status changed to 7. -/
theorem c2_exit_status_ignored_witness :
    TranscodeTask.execute ⟨"a/01.flac", "out", "V0", ""⟩ {}
        { (⟨fun _ => ["TRACK=1"], fun _ => false, 1⟩ : FsEnv) with encoderExitCode := 7 } =
      some ⟨0, ["out/a (V0)"],
        [["ffmpeg", "-hide_banner", "-v", "warning", "-stats", "-i", "a/01.flac",
          "-q:a", "0", "out/a (V0)/01.mp3"]], []⟩ ∧
    (⟨0, ["out/a (V0)"],
        [["ffmpeg", "-hide_banner", "-v", "warning", "-stats", "-i", "a/01.flac",
          "-q:a", "0", "out/a (V0)/01.mp3"]], []⟩ : ExecEffects).filesWritten = [] ∧
    ((⟨0, ["out/a (V0)"],
        [["ffmpeg", "-hide_banner", "-v", "warning", "-stats", "-i", "a/01.flac",
          "-q:a", "0", "out/a (V0)/01.mp3"]], []⟩ : ExecEffects).spawned ≠ [] →
      (⟨0, ["out/a (V0)"],
        [["ffmpeg", "-hide_banner", "-v", "warning", "-stats", "-i", "a/01.flac",
          "-q:a", "0", "out/a (V0)/01.mp3"]], []⟩ : ExecEffects).result = 0) :=
  c2_exit_status_ignored ⟨"a/01.flac", "out", "V0", ""⟩ {}
    ⟨fun _ => ["TRACK=1"], fun _ => false, 1⟩ 7 _
    (by simp [TranscodeTask.execute, doRename, tagsFromLines, tagStep, splitOnChar, strUpper,
      copyTags, sanitizeTagValue, lookupTag, filenameFromTags, scanPattern, scanAux, wordSpan,
      isWordChar, processSegments, tagOfPlaceholder, splitPath, splitext, extOfBase, afterLast,
      dropTrailingWhile, escapePercent, escapePercentList, pyFormat, pyFormatKey, osJoin,
      strStarts, strEnds, strLower, leadsWith, changeFormatName, flacSearch, flacSub, isMarker,
      encOptsLookup])

/-! ## Claim C3 — skip when the destination exists and overwrite is off -/

/-- C3: when the rename succeeds, the codec is known, the computed
destination file exists and overwrite is disabled, `execute` returns the
skip result 1, spawns no subprocess and writes no file (so no sentinel and
the existing destination is untouched); only the destination directory is
created (which the source does before the existence check). -/
theorem c3_skip_when_exists (t : TranscodeTask) (opts : Opts) (env : FsEnv) (d : String)
    (enc : EncOpt)
    (hren : (doRename (env.decoderLines t.source) t.rename_pattern (splitPath t.source).1
      (splitPath t.source).2).2 = .ok d)
    (henc : encOptsLookup t.codec = some enc)
    (hex : env.pathExists ((splitext (changeFormatName (osJoin t.destination d) t.codec)).1
      ++ enc.ext) = true)
    (hov : opts.overwrite = false) :
    t.execute opts env =
      some { result := 1,
             dirsMade := [(splitPath ((splitext (changeFormatName (osJoin t.destination d)
               t.codec)).1 ++ enc.ext)).1],
             spawned := [], filesWritten := [] } := by
  simp only [TranscodeTask.execute, hren, henc, hex, hov]
  simp

/-- C3 (witness): a concrete task whose destination exists while
overwrite is off is skipped with result 1 and no spawned subprocess. -/
theorem c3_skip_when_exists_witness :
    TranscodeTask.execute ⟨"a/01.flac", "out", "V0", ""⟩ {}
        ⟨fun _ => ["TRACK=1"], fun _ => true, 0⟩ =
      some ⟨1, ["out/a (V0)"], [], []⟩ := by
  have h := c3_skip_when_exists ⟨"a/01.flac", "out", "V0", ""⟩ {}
    ⟨fun _ => ["TRACK=1"], fun _ => true, 0⟩ "a/01.flac" ⟨".mp3", ["-q:a", "0"]⟩
    (by simp [doRename, tagsFromLines, tagStep, splitOnChar, strUpper, copyTags,
      sanitizeTagValue, lookupTag, filenameFromTags, scanPattern, scanAux, wordSpan, isWordChar,
      processSegments, tagOfPlaceholder, splitPath, splitext, extOfBase, afterLast,
      dropTrailingWhile, escapePercent, escapePercentList, pyFormat, pyFormatKey, osJoin,
      strStarts, strEnds, leadsWith])
    (by decide) (by decide) (by decide)
  rw [h]
  decide

/-! ## Claim C6 — line parsing in `tags_from_file` -/

/-- C6 (counterexample): the source splits on EVERY `=` and demands
exactly two parts, so the line `"TITLE=a=b"` is discarded; under the
claimed split-on-first-`=` semantics (`tagsFromLinesSpec`) it would store
`TITLE ↦ "a=b"`. -/
theorem c6_split_divergence :
    lookupTag (tagsFromLines ["TITLE=a=b"]) "TITLE" = none ∧
    lookupTag (tagsFromLinesSpec ["TITLE=a=b"]) "TITLE" = some "a=b" := by decide

/-- C6 (amended): a decoder line produces an entry exactly when splitting
it on EVERY `'='` yields precisely two parts whose upper-cased key is in
the fixed tag set; the stored entry maps the upper-cased key to the value
with `':'` and `'/'` replaced by `'-'`; every other line leaves the Tag
Map unchanged. -/
theorem c6_tag_line_semantics (lines : List String) (line k v : String) :
    ((splitOnChar '=' line.toList).map String.mk = [k, v] → strUpper k ∈ copyTags →
      lookupTag (tagsFromLines (lines ++ [line])) (strUpper k) = some (sanitizeTagValue v)) ∧
    ((splitOnChar '=' line.toList).map String.mk = [k, v] → strUpper k ∉ copyTags →
      tagsFromLines (lines ++ [line]) = tagsFromLines lines) ∧
    ((∀ a b : String, (splitOnChar '=' line.toList).map String.mk ≠ [a, b]) →
      tagsFromLines (lines ++ [line]) = tagsFromLines lines) := by
  have hstep : tagsFromLines (lines ++ [line]) = tagStep (tagsFromLines lines) line := by
    simp [tagsFromLines, List.foldl_append]
  refine ⟨?_, ?_, ?_⟩
  · intro hs hk
    rw [hstep]
    unfold tagStep
    rw [hs]
    simp only [hk, if_true]
    simp [lookupTag]
  · intro hs hk
    rw [hstep]
    unfold tagStep
    rw [hs]
    simp [hk]
  · intro hno
    rw [hstep]
    unfold tagStep
    rcases hd : (splitOnChar '=' line.toList).map String.mk with _ | ⟨a, _ | ⟨b, _ | _⟩⟩ <;>
      simp_all

/-- C6 (witness): the line `"title=Foo:Bar"` appended after an `ARTIST`
line stores `TITLE ↦ "Foo-Bar"`. -/
theorem c6_tag_line_semantics_witness :
    lookupTag (tagsFromLines (["ARTIST=Me"] ++ ["title=Foo:Bar"])) (strUpper "title") =
      some (sanitizeTagValue "Foo:Bar") :=
  (c6_tag_line_semantics ["ARTIST=Me"] "title=Foo:Bar" "title" "Foo:Bar").1
    (by decide) (by decide)

/-! ## Claim C8 — dispatch and the exclusion flags -/

/-- C8: dispatch is exhaustive and exclusive and determined solely by the
(case-insensitively lowered) path suffix — but the `nolog`/`nocue`/
`nodots` exclusion flags are parsed and never consulted: a `.log` file
that `specExcluded` (the behaviour the flags' own help text promises) says
must be excluded is dispatched as a Copy task all the same, identically
with and without the flag, and flipping all three flags never changes the
dispatched task. -/
theorem c8_exclusion_flags_ignored :
    specExcluded { nolog := true, output := "out" } "a/b.log" = true ∧
    task_dispatch "a/b.log" "V0" { nolog := true, output := "out" } =
      .copyT "a/b.log" "out" "V0" "" ∧
    task_dispatch "a/b.log" "V0" { output := "out" } = .copyT "a/b.log" "out" "V0" "" ∧
    task_dispatch "a/B.FLAC" "V0" { nolog := true, output := "out" } =
      .transcodeT "a/B.FLAC" "out" "V0" "" ∧
    ∀ (path codec : String) (o : Opts) (b1 b2 b3 : Bool),
      task_dispatch path codec { o with nolog := b1, nocue := b2, nodots := b3 } =
        task_dispatch path codec o := by
  refine ⟨by decide, by decide, by decide, by decide, ?_⟩
  intro path codec o b1 b2 b3
  rfl

/-! ## Claim C9 — enumerator selection by extension -/

/-- C9: `main` compares `os.path.splitext`'s extension — which includes
the leading dot — against the dotless strings `"m3u"`/`"m3u8"`, so a
playlist source like `"playlist.m3u"` is handed to the directory walker,
never to the playlist reader; only the `.xml` comparison (written with the
dot) selects the collection reader. -/
theorem c9_playlist_sources_walked :
    selectEnumerator "playlist.m3u" = SourceKind.folder ∧
    selectEnumerator "mix.m3u8" = SourceKind.folder ∧
    selectEnumerator "collection.xml" = SourceKind.xmlDoc ∧
    selectEnumerator "Album" = SourceKind.folder := by decide

/-! ## Claim C10 — the enumerators mutate `opts.rename` -/

theorem task_dispatch_patternOf (path codec : String) (o : Opts) :
    (task_dispatch path codec o).patternOf = o.rename := by
  unfold task_dispatch
  split <;> rfl

theorem m3uStep_not_pass (env : M3uEnv) (codec : String) (st : Opts × List DTask)
    (line : String) (h : m3uPass env line = false) : m3uStep env codec st line = st := by
  simp only [m3uStep]
  simp only [m3uPass] at h
  split_ifs at h ⊢ <;> simp_all

theorem m3uStep_pass_unset (env : M3uEnv) (codec : String) (o : Opts) (ts : List DTask)
    (line : String) (h : m3uPass env line = true) (ho : o.rename = "") :
    m3uStep env codec (o, ts) line =
      ({ o with rename := "%f%" },
       ts ++ [task_dispatch (rstripNewlines line) codec { o with rename := "%f%" }]) := by
  simp only [m3uStep]
  simp only [m3uPass] at h
  split_ifs at h ⊢ <;> simp_all

theorem m3uStep_pass_set (env : M3uEnv) (codec : String) (o : Opts) (ts : List DTask)
    (line : String) (h : m3uPass env line = true) (ho : o.rename ≠ "") :
    m3uStep env codec (o, ts) line =
      (o, ts ++ [task_dispatch (rstripNewlines line) codec o]) := by
  simp only [m3uStep]
  simp only [m3uPass] at h
  split_ifs at h ⊢ <;> simp_all

theorem m3uFold_set (env : M3uEnv) (codec : String) :
    ∀ (lines : List String) (o : Opts) (ts : List DTask), o.rename ≠ "" →
      (lines.foldl (m3uStep env codec) (o, ts)).1 = o ∧
      ∀ t ∈ (lines.foldl (m3uStep env codec) (o, ts)).2, t ∈ ts ∨ t.patternOf = o.rename := by
  intro lines
  induction lines with
  | nil => exact fun o ts _ => ⟨rfl, fun t ht => Or.inl ht⟩
  | cons l rest ih =>
    intro o ts ho
    simp only [List.foldl_cons]
    cases hp : m3uPass env l with
    | false =>
      rw [m3uStep_not_pass env codec (o, ts) l hp]
      exact ih o ts ho
    | true =>
      rw [m3uStep_pass_set env codec o ts l hp ho]
      obtain ⟨h1, h2⟩ := ih o (ts ++ [task_dispatch (rstripNewlines l) codec o]) ho
      refine ⟨h1, fun t ht => ?_⟩
      rcases h2 t ht with h3 | h3
      · rcases List.mem_append.mp h3 with h4 | h4
        · exact Or.inl h4
        · right
          rw [List.mem_singleton.mp h4, task_dispatch_patternOf]
      · exact Or.inr h3

theorem m3uFold_unset (env : M3uEnv) (codec : String) :
    ∀ (lines : List String) (o : Opts) (ts : List DTask), o.rename = "" →
      (∃ line ∈ lines, m3uPass env line = true) →
      (lines.foldl (m3uStep env codec) (o, ts)).1 = { o with rename := "%f%" } ∧
      ∀ t ∈ (lines.foldl (m3uStep env codec) (o, ts)).2, t ∈ ts ∨ t.patternOf = "%f%" := by
  intro lines
  induction lines with
  | nil =>
    intro o ts ho hex
    rcases hex with ⟨l, hl, _⟩
    cases hl
  | cons l rest ih =>
    intro o ts ho hex
    simp only [List.foldl_cons]
    cases hp : m3uPass env l with
    | false =>
      rw [m3uStep_not_pass env codec (o, ts) l hp]
      apply ih o ts ho
      rcases hex with ⟨l2, hl2, hp2⟩
      rcases List.mem_cons.mp hl2 with rfl | h2
      · rw [hp] at hp2
        cases hp2
      · exact ⟨l2, h2, hp2⟩
    | true =>
      rw [m3uStep_pass_unset env codec o ts l hp ho]
      have h2 : ({ o with rename := "%f%" } : Opts).rename ≠ "" := by simp
      obtain ⟨h3, h4⟩ := m3uFold_set env codec rest { o with rename := "%f%" }
        (ts ++ [task_dispatch (rstripNewlines l) codec { o with rename := "%f%" }]) h2
      refine ⟨h3, fun t ht => ?_⟩
      rcases h4 t ht with h5 | h5
      · rcases List.mem_append.mp h5 with h6 | h6
        · exact Or.inl h6
        · right
          rw [List.mem_singleton.mp h6, task_dispatch_patternOf]
      · exact Or.inr h5

theorem parseXmlTracks_rename (coll : String → Option String) (codec name : String) :
    ∀ (keys : List String) (o : Opts) (ts : List DTask) (o2 : Opts) (ts2 : List DTask),
      parseXmlTracks coll codec name keys o ts = some (o2, ts2) →
      (o2 = if keys.isEmpty then o else { o with rename := name ++ "/%f%" }) ∧
      ∀ t ∈ ts2, t ∈ ts ∨ t.patternOf = name ++ "/%f%" := by
  intro keys
  induction keys with
  | nil =>
    intro o ts o2 ts2 h
    simp only [parseXmlTracks, Option.some.injEq, Prod.mk.injEq] at h
    obtain ⟨rfl, rfl⟩ := h
    exact ⟨by simp, fun t ht => Or.inl ht⟩
  | cons key rest ih =>
    intro o ts o2 ts2 h
    rcases hc : coll key with _ | loc
    · simp only [parseXmlTracks, hc] at h
      exact Option.noConfusion h
    · simp only [parseXmlTracks, hc] at h
      by_cases hr : o.root_dir ≠ ""
      · rw [if_pos hr] at h
        obtain ⟨h1, h2⟩ := ih _ _ _ _ h
        constructor
        · rw [h1]
          rcases rest with _ | ⟨k2, r2⟩ <;> simp
        · intro t ht
          rcases h2 t ht with h3 | h3
          · rcases List.mem_append.mp h3 with h4 | h4
            · exact Or.inl h4
            · right
              rw [List.mem_singleton.mp h4, task_dispatch_patternOf]
          · exact Or.inr h3
      · rw [if_neg hr] at h
        cases h

/-- C10: enumerating a playlist or collection source mutates the shared
configuration: `parse_m3u` permanently sets `opts.rename` to `"%f%"` when
no pattern was supplied (and at least one entry is dispatched), and the
playlist branch of `parse_xml_playlists` sets it to
`"<playlist name>/%f%"`; in both cases no other configuration field is
modified (the returned `Opts` equals the input with only `rename`
updated), every task the enumerator dispatched carries that pattern, and
every dispatch performed afterwards uses the current (last-assigned)
`opts.rename`. -/
theorem c10_enumerators_mutate_rename (env : M3uEnv) (lines : List String) (codec : String)
    (opts : Opts) (coll : String → Option String) (name : String) (keys : List String)
    (o2 : Opts) (ts2 : List DTask)
    (hunset : opts.rename = "")
    (hpass : ∃ line ∈ lines, m3uPass env line = true)
    (hxml : parse_xml_playlists coll codec (.playlist name keys) opts [] = some (o2, ts2))
    (hkeys : keys ≠ []) :
    (parse_m3u env lines codec opts).1 = { opts with rename := "%f%" } ∧
    (∀ t ∈ (parse_m3u env lines codec opts).2, t.patternOf = "%f%") ∧
    o2 = { opts with rename := name ++ "/%f%" } ∧
    (∀ t ∈ ts2, t.patternOf = name ++ "/%f%") ∧
    (∀ (path c : String) (o : Opts), (task_dispatch path c o).patternOf = o.rename) := by
  obtain ⟨h1, h2⟩ := m3uFold_unset env codec lines opts [] hunset hpass
  have hxml2 : parseXmlTracks coll codec name keys opts [] = some (o2, ts2) := hxml
  obtain ⟨h3, h4⟩ := parseXmlTracks_rename coll codec name keys opts [] o2 ts2 hxml2
  refine ⟨h1, fun t ht => ?_, ?_, fun t ht => ?_, task_dispatch_patternOf⟩
  · rcases h2 t ht with h5 | h5
    · cases h5
    · exact h5
  · rw [h3]
    rcases keys with _ | ⟨k2, r2⟩
    · exact absurd rfl hkeys
    · simp
  · rcases h4 t ht with h5 | h5
    · cases h5
    · exact h5

/-- C10 (witness): a one-line playlist with an unset pattern ends with
`rename = "%f%"`, and a one-track playlist node named `Mix` ends with
`rename = "Mix/%f%"`, all other fields untouched, the dispatched task
carrying the pattern. -/
theorem c10_enumerators_mutate_rename_witness :
    (parse_m3u ⟨fun _ => true, fun _ => true⟩ ["/m/t.mp3"] "V0" { root_dir := "/new" }).1 =
      { ({ root_dir := "/new" } : Opts) with rename := "%f%" } ∧
    (∀ t ∈ (parse_m3u ⟨fun _ => true, fun _ => true⟩ ["/m/t.mp3"] "V0"
        { root_dir := "/new" }).2, t.patternOf = "%f%") ∧
    ({ ({ root_dir := "/new" } : Opts) with rename := "Mix/%f%" } : Opts) =
      { ({ root_dir := "/new" } : Opts) with rename := "Mix" ++ "/%f%" } ∧
    (∀ t ∈ [DTask.copyT "/new/me/t.mp3" "" "V0" "Mix/%f%"],
      t.patternOf = "Mix" ++ "/%f%") ∧
    (∀ (path c : String) (o : Opts), (task_dispatch path c o).patternOf = o.rename) :=
  c10_enumerators_mutate_rename ⟨fun _ => true, fun _ => true⟩ ["/m/t.mp3"] "V0"
    { root_dir := "/new" } (fun _ => some "file://localhost/Users/me/t.mp3") "Mix" ["1"]
    { ({ root_dir := "/new" } : Opts) with rename := "Mix/%f%" }
    [DTask.copyT "/new/me/t.mp3" "" "V0" "Mix/%f%"]
    (by decide) (by decide) (by decide) (by decide)

/-! ## Rename-engine lemmas (for claims C4, C5, C7) -/

theorem toList_append (a b : String) : (a ++ b).toList = a.toList ++ b.toList := by
  rcases a with ⟨la⟩
  rcases b with ⟨lb⟩
  rfl

theorem strMk_append (a : String) (l : List Char) :
    a ++ String.mk l = String.mk (a.toList ++ l) := by
  rcases a with ⟨la⟩
  rfl

theorem strMk_toList (s : String) : String.mk s.toList = s := by
  rcases s with ⟨l⟩
  rfl

/-- A tag name produced by the `placeholders` dict is one of the three
tag-backed names or the empty marker. -/
theorem tagOf_cases (pl t : String) (h : tagOfPlaceholder pl = some t) :
    t = "TRACK" ∨ t = "TITLE" ∨ t = "ARTIST" ∨ t = "" := by
  unfold tagOfPlaceholder at h
  split at h <;> simp_all

/-- When every placeholder is recognized and every tag-backed one has its
tag present, the placeholder loop succeeds and builds exactly the
printf-format string `buildFormat` describes. -/
theorem strAppend_assoc (a b c : String) : a ++ b ++ c = a ++ (b ++ c) := by
  rcases a with ⟨la⟩
  rcases b with ⟨lb⟩
  rcases c with ⟨lc⟩
  show String.mk (la ++ lb ++ lc) = String.mk (la ++ (lb ++ lc))
  rw [List.append_assoc]

theorem processSegments_ok (tags : Tags) (dirname filename : String) :
    ∀ segs : List (String × String),
      (∀ seg ∈ segs, (tagOfPlaceholder seg.2).isSome = true) →
      (∀ seg ∈ segs, ∀ t, tagOfPlaceholder seg.2 = some t → t ≠ "" →
        (lookupTag tags t).isSome = true) →
      processSegments tags dirname filename segs = .ok (buildFormat dirname filename segs) := by
  intro segs
  induction segs with
  | nil => intro _ _; rfl
  | cons seg rest ih =>
    intro h1 h2
    obtain ⟨lit, pl⟩ := seg
    have hrest := ih (fun s hs => h1 s (List.mem_cons_of_mem _ hs))
      (fun s hs => h2 s (List.mem_cons_of_mem _ hs))
    rcases ho : tagOfPlaceholder pl with _ | t
    · have h3 := h1 (lit, pl) (List.mem_cons_self _ _)
      rw [ho] at h3
      simp at h3
    · by_cases ht : t = ""
      · subst ht
        simp only [processSegments, buildFormat, ho, hrest]
        simp [strAppend_assoc]
      · have hs := h2 (lit, pl) (List.mem_cons_self _ _) t ho ht
        simp only [processSegments, buildFormat, ho, hrest]
        simp [ht, hs, strAppend_assoc]

/-- Under recognized placeholders, the loop fails with a missing-tag error
iff some tag-backed placeholder's tag is absent. -/
theorem processSegments_missing_iff (tags : Tags) (dirname filename : String) :
    ∀ segs : List (String × String),
      (∀ seg ∈ segs, (tagOfPlaceholder seg.2).isSome = true) →
      ((∃ T, processSegments tags dirname filename segs = .error (.missingTag T)) ↔
        ∃ seg ∈ segs, ∃ t, tagOfPlaceholder seg.2 = some t ∧ t ≠ "" ∧
          lookupTag tags t = none) := by
  intro segs
  induction segs with
  | nil =>
    intro _
    constructor
    · rintro ⟨T, hT⟩
      simp [processSegments] at hT
    · rintro ⟨seg, hs, _⟩
      cases hs
  | cons seg rest ih =>
    intro h1
    obtain ⟨lit, pl⟩ := seg
    have hih := ih (fun s hs => h1 s (List.mem_cons_of_mem _ hs))
    rcases ho : tagOfPlaceholder pl with _ | t
    · have h3 := h1 (lit, pl) (List.mem_cons_self _ _)
      rw [ho] at h3
      simp at h3
    · by_cases ht : t = ""
      · subst ht
        constructor
        · rintro ⟨T, hT⟩
          rcases hrest : processSegments tags dirname filename rest with e | s
          · simp only [processSegments, ho, hrest] at hT
            simp at hT
            obtain ⟨seg2, hs2, w⟩ := hih.mp ⟨T, by rw [hrest, hT]⟩
            exact ⟨seg2, List.mem_cons_of_mem _ hs2, w⟩
          · simp [processSegments, ho, hrest] at hT
        · rintro ⟨seg2, hs2, t2, ht2, hne2, hl2⟩
          rcases List.mem_cons.mp hs2 with heq | hmem
          · rw [heq] at ht2
            rw [ho] at ht2
            injection ht2 with ht3
            exact absurd ht3.symm hne2
          · obtain ⟨T, hT⟩ := hih.mpr ⟨seg2, hmem, t2, ht2, hne2, hl2⟩
            refine ⟨T, ?_⟩
            simp [processSegments, ho, hT]
      · rcases hlk : lookupTag tags t with _ | v
        · constructor
          · intro _
            exact ⟨(lit, pl), List.mem_cons_self _ _, t, ho, ht, hlk⟩
          · intro _
            refine ⟨t, ?_⟩
            simp [processSegments, ho, ht, hlk]
        · constructor
          · rintro ⟨T, hT⟩
            rcases hrest : processSegments tags dirname filename rest with e | s
            · simp only [processSegments, ho, hrest] at hT
              simp [ht, hlk] at hT
              obtain ⟨seg2, hs2, w⟩ := hih.mp ⟨T, by rw [hrest, hT]⟩
              exact ⟨seg2, List.mem_cons_of_mem _ hs2, w⟩
            · simp [processSegments, ho, hrest, ht, hlk] at hT
          · rintro ⟨seg2, hs2, t2, ht2, hne2, hl2⟩
            rcases List.mem_cons.mp hs2 with heq | hmem
            · rw [heq] at ht2
              rw [ho] at ht2
              injection ht2 with ht3
              rw [← ht3] at hl2
              rw [hlk] at hl2
              cases hl2
            · obtain ⟨T, hT⟩ := hih.mpr ⟨seg2, hmem, t2, ht2, hne2, hl2⟩
              refine ⟨T, ?_⟩
              simp [processSegments, ho, ht, hlk, hT]

/-- One formatting step past an ordinary character. -/
theorem pyFormat_cons_ne (tags : Tags) (c : Char) (rest : List Char) (hc : c ≠ '%') :
    pyFormat tags (c :: rest) = (pyFormat tags rest).map (fun r => c :: r) := by
  rw [pyFormat.eq_def]
  simp only [if_neg hc]
  cases hb : pyFormat tags rest <;> simp [Except.map, hb]

/-- One formatting step past an escaped percent. -/
theorem pyFormat_pp (tags : Tags) (rest : List Char) :
    pyFormat tags ('%' :: '%' :: rest) = (pyFormat tags rest).map (fun r => '%' :: r) := by
  rw [pyFormat.eq_def]
  simp only [if_pos rfl]
  cases hb : pyFormat tags rest <;> simp [Except.map, hb]

/-- Running the key scanner over a `')'`-free key: it accumulates the key
and substitutes. -/
theorem pyFormatKey_run (tags : Tags) :
    ∀ (l acc b : List Char), ')' ∉ l →
      pyFormatKey tags acc (l ++ ')' :: 's' :: b) =
        (match lookupTag tags (String.mk (acc ++ l)) with
         | none => .error (.keyError (String.mk (acc ++ l)))
         | some v => (pyFormat tags b).map (fun r => v.toList ++ r)) := by
  intro l
  induction l with
  | nil =>
    intro acc b _
    rw [List.nil_append, pyFormatKey.eq_def]
    simp only [if_pos rfl, List.append_nil]
    rcases hlt : lookupTag tags (String.mk acc) with _ | v
    · simp [hlt]
    · simp only [hlt]
      cases hb : pyFormat tags b <;> simp [Except.map, hb]
  | cons c l2 ih =>
    intro acc b h
    have hc : c ≠ ')' := fun hh => h (hh ▸ List.mem_cons_self c l2)
    have h2 : ')' ∉ l2 := fun hh => h (List.mem_cons_of_mem _ hh)
    rw [List.cons_append, pyFormatKey.eq_def]
    simp only [if_neg hc]
    rw [ih (acc ++ [c]) b h2]
    simp [List.append_assoc]

/-- Formatting a `%(TAG)s` conversion substitutes the tag's value. -/
theorem pyFormat_tagBlock (tags : Tags) (t v : String) (b : List Char)
    (ht : ')' ∉ t.toList) (hv : lookupTag tags t = some v) :
    pyFormat tags ('%' :: '(' :: (t.toList ++ ')' :: 's' :: b)) =
      (pyFormat tags b).map (fun r => v.toList ++ r) := by
  rw [pyFormat.eq_def]
  simp only [if_pos rfl, if_neg (by decide : ¬('(' = '%'))]
  rw [pyFormatKey_run tags t.toList [] b ht]
  simp [strMk_toList, hv]

/-- The formatting pass never produces the rename engine's missing-tag
error (its failures are `keyError`/`formatError`). -/
theorem pyFormat_ne_missingTag (tags : Tags) :
    ∀ n : Nat,
      (∀ l : List Char, l.length ≤ n → ∀ T, pyFormat tags l ≠ .error (.missingTag T)) ∧
      (∀ (key l : List Char), l.length ≤ n → ∀ T,
        pyFormatKey tags key l ≠ .error (.missingTag T)) := by
  intro n
  induction n with
  | zero =>
    constructor
    · intro l hl T
      have hnil : l = [] := List.length_eq_zero.mp (Nat.le_zero.mp hl)
      subst hnil
      simp [pyFormat]
    · intro key l hl T
      have hnil : l = [] := List.length_eq_zero.mp (Nat.le_zero.mp hl)
      subst hnil
      simp [pyFormatKey]
  | succ n ih =>
    obtain ⟨ihf, ihk⟩ := ih
    constructor
    · intro l hl T
      rcases l with _ | ⟨c, rest⟩
      · simp [pyFormat]
      · rw [pyFormat.eq_def]
        by_cases hc : c = '%'
        · simp only [if_pos hc]
          rcases rest with _ | ⟨c2, rest2⟩
          · simp
          · have hlen : rest2.length ≤ n := by
              simp only [List.length_cons] at hl
              omega
            by_cases hc2 : c2 = '%'
            · simp only [if_pos hc2]
              rcases hrec : pyFormat tags rest2 with e | r
              · intro hx
                simp at hx
                exact ihf rest2 hlen T (by rw [hrec, hx])
              · simp
            · simp only [if_neg hc2]
              by_cases hc3 : c2 = '('
              · simp only [if_pos hc3]
                exact ihk [] rest2 hlen T
              · simp only [if_neg hc3]
                simp
        · simp only [if_neg hc]
          have hlen : rest.length ≤ n := by
            simp only [List.length_cons] at hl
            omega
          rcases hrec : pyFormat tags rest with e | r
          · intro hx
            simp at hx
            exact ihf rest hlen T (by rw [hrec, hx])
          · simp
    · intro key l hl T
      rcases l with _ | ⟨c, rest⟩
      · simp [pyFormatKey]
      · rw [pyFormatKey.eq_def]
        by_cases hc : c = ')'
        · simp only [if_pos hc]
          rcases rest with _ | ⟨c2, rest2⟩
          · simp
          · have hlen : rest2.length ≤ n := by
              simp only [List.length_cons] at hl
              omega
            by_cases hc2 : c2 = 's'
            · subst hc2
              rcases hlt : lookupTag tags (String.mk key) with _ | v
              · simp [hlt]
              · simp only [hlt]
                rcases hrec : pyFormat tags rest2 with e | r
                · intro hx
                  simp at hx
                  exact ihf rest2 hlen T (by rw [hrec, hx])
                · simp
            · split <;> simp_all
        · simp only [if_neg hc]
          have hlen : rest.length ≤ n := by
            simp only [List.length_cons] at hl
            omega
          exact ihk (key ++ [c]) rest hlen T

theorem pyFormat_no_missing (tags : Tags) (l : List Char) (T : String) :
    pyFormat tags l ≠ .error (.missingTag T) :=
  (pyFormat_ne_missingTag tags l.length).1 l le_rfl T

/-- Formatting past percent-free text copies it verbatim. -/
theorem pyFormat_append_noPercent (tags : Tags) :
    ∀ a b : List Char, '%' ∉ a →
      pyFormat tags (a ++ b) = (pyFormat tags b).map (fun r => a ++ r) := by
  intro a
  induction a with
  | nil =>
    intro b _
    cases hb : pyFormat tags b <;> simp [Except.map, hb]
  | cons c a2 ih =>
    intro b hna
    have hc : c ≠ '%' := fun h => hna (h ▸ List.mem_cons_self c a2)
    have ha2 : '%' ∉ a2 := fun h => hna (List.mem_cons_of_mem _ h)
    rw [List.cons_append, pyFormat_cons_ne tags c _ hc, ih b ha2]
    cases hb : pyFormat tags b <;> simp [Except.map, hb]

/-- Formatting percent-escaped text restores the original text. -/
theorem pyFormat_escaped (tags : Tags) :
    ∀ t b : List Char,
      pyFormat tags (escapePercentList t ++ b) = (pyFormat tags b).map (fun r => t ++ r) := by
  intro t
  induction t with
  | nil =>
    intro b
    cases hb : pyFormat tags b <;> simp [escapePercentList, Except.map, hb]
  | cons c t2 ih =>
    intro b
    by_cases hc : c = '%'
    · subst hc
      rw [show escapePercentList ('%' :: t2) = '%' :: '%' :: escapePercentList t2 from by
        simp [escapePercentList]]
      rw [List.cons_append, List.cons_append, pyFormat_pp, ih b]
      cases hb : pyFormat tags b <;> simp [Except.map, hb]
    · rw [show escapePercentList (c :: t2) = c :: escapePercentList t2 from by
        simp [escapePercentList, hc]]
      rw [List.cons_append, pyFormat_cons_ne tags c _ hc, ih b]
      cases hb : pyFormat tags b <;> simp [Except.map, hb]

/-- Formatting the built format string against the Tag Map yields the
reference rendering, provided no stray `%` hides in the literal segments,
the filename or the directory basename. -/
theorem pyFormat_buildFormat (tags : Tags) (dirname filename : String) :
    ∀ (segs : List (String × String)) (b : List Char),
      (∀ seg ∈ segs, (tagOfPlaceholder seg.2).isSome = true) →
      (∀ seg ∈ segs, ∀ t, tagOfPlaceholder seg.2 = some t → t ≠ "" →
        (lookupTag tags t).isSome = true) →
      (∀ seg ∈ segs, '%' ∉ seg.1.toList) →
      '%' ∉ filename.toList → '%' ∉ (splitPath dirname).2.toList →
      pyFormat tags ((buildFormat dirname filename segs).toList ++ b) =
        (pyFormat tags b).map
          (fun r => (renderSegments tags dirname filename segs).toList ++ r) := by
  intro segs
  induction segs with
  | nil =>
    intro b _ _ _ _ _
    cases hb : pyFormat tags b <;> simp [buildFormat, renderSegments, Except.map, hb]
  | cons seg rest ih =>
    intro b h1 h2 h3 hf hd
    obtain ⟨lit, pl⟩ := seg
    have hlit : '%' ∉ lit.toList := h3 (lit, pl) (List.mem_cons_self _ _)
    have hih := ih b (fun s hs => h1 s (List.mem_cons_of_mem _ hs))
      (fun s hs => h2 s (List.mem_cons_of_mem _ hs))
      (fun s hs => h3 s (List.mem_cons_of_mem _ hs)) hf hd
    rcases ho : tagOfPlaceholder pl with _ | t
    · have h4 := h1 (lit, pl) (List.mem_cons_self _ _)
      rw [ho] at h4
      simp at h4
    · by_cases ht : t = ""
      · subst ht
        have hX : '%' ∉ (if pl = "f" then filename else (splitPath dirname).2).toList := by
          split
          · exact hf
          · exact hd
        have hsplit : (buildFormat dirname filename ((lit, pl) :: rest)).toList ++ b =
            lit.toList ++ ((if pl = "f" then filename else (splitPath dirname).2).toList ++
              ((buildFormat dirname filename rest).toList ++ b)) := by
          simp [buildFormat, ho, toList_append, List.append_assoc]
        rw [hsplit, pyFormat_append_noPercent tags _ _ hlit,
          pyFormat_append_noPercent tags _ _ hX, hih]
        cases hb : pyFormat tags b <;>
          simp [renderSegments, ho, Except.map, hb, toList_append, List.append_assoc]
      · have hsome := h2 (lit, pl) (List.mem_cons_self _ _) t ho ht
        rcases hlk : lookupTag tags t with _ | v
        · rw [hlk] at hsome
          simp at hsome
        · have hpar : ')' ∉ t.toList := by
            rcases tagOf_cases pl t ho with h5 | h5 | h5 | h5 <;> subst h5
            · decide
            · decide
            · decide
            · exact absurd rfl ht
          have hsplit : (buildFormat dirname filename ((lit, pl) :: rest)).toList ++ b =
              lit.toList ++ ('%' :: '(' :: (t.toList ++ ')' :: 's' ::
                ((buildFormat dirname filename rest).toList ++ b))) := by
            simp [buildFormat, ho, ht, toList_append, List.append_assoc]
          rw [hsplit, pyFormat_append_noPercent tags _ _ hlit,
            pyFormat_tagBlock tags t v _ hpar hlk, hih]
          cases hb : pyFormat tags b <;>
            simp [renderSegments, ho, ht, hlk, Except.map, hb, toList_append, List.append_assoc]

theorem strMk_data_append2 (a b : String) : String.mk (a.data ++ b.data) = a ++ b := by
  rcases a with ⟨la⟩
  rcases b with ⟨lb⟩
  rfl

theorem strMk_data_append3 (a b c : String) :
    String.mk (a.data ++ (b.data ++ c.data)) = a ++ b ++ c := by
  rcases a with ⟨la⟩
  rcases b with ⟨lb⟩
  rcases c with ⟨lc⟩
  show String.mk (la ++ (lb ++ lc)) = String.mk (la ++ lb ++ lc)
  rw [List.append_assoc]

/-- The successful path of `filename_from_tags`: recognized placeholders,
all tag-backed placeholders present, and no stray `%` outside the
escaped tail make the resolver return the fully substituted filename. -/
theorem filenameFromTags_renders (pattern : String) (tags : Tags) (dirname filename : String)
    (h1 : ∀ seg ∈ (scanPattern pattern).1, (tagOfPlaceholder seg.2).isSome = true)
    (h2 : ∀ seg ∈ (scanPattern pattern).1, ∀ t, tagOfPlaceholder seg.2 = some t → t ≠ "" →
      (lookupTag tags t).isSome = true)
    (h3 : ∀ seg ∈ (scanPattern pattern).1, '%' ∉ seg.1.toList)
    (hf : '%' ∉ filename.toList) (hd : '%' ∉ (splitPath dirname).2.toList)
    (hext : '%' ∉ (splitext filename).2.toList) :
    filenameFromTags pattern (some tags) dirname filename =
      .ok (renderedFilename tags dirname filename pattern) := by
  have hps := processSegments_ok tags dirname filename (scanPattern pattern).1 h1 h2
  simp only [filenameFromTags, renderedFilename, hps]
  by_cases hcond : (splitext filename).2 ≠
      (splitext (buildFormat dirname filename (scanPattern pattern).1 ++
        escapePercent (scanPattern pattern).2)).2
  · rw [if_pos hcond, if_pos hcond]
    have hlist : (buildFormat dirname filename (scanPattern pattern).1 ++
        escapePercent (scanPattern pattern).2 ++ (splitext filename).2).toList =
        (buildFormat dirname filename (scanPattern pattern).1).toList ++
          (escapePercentList (scanPattern pattern).2.toList ++
            ((splitext filename).2.toList ++ [])) := by
      simp [toList_append, escapePercent, List.append_assoc]
    rw [hlist, pyFormat_buildFormat tags dirname filename _ _ h1 h2 h3 hf hd,
      pyFormat_escaped tags, pyFormat_append_noPercent tags _ _ hext]
    simp [Except.map, pyFormat, strMk_append, toList_append, strMk_toList,
      List.append_assoc]
    exact strMk_data_append3 _ _ _
  · rw [if_neg hcond, if_neg hcond]
    have hlist : (buildFormat dirname filename (scanPattern pattern).1 ++
        escapePercent (scanPattern pattern).2).toList =
        (buildFormat dirname filename (scanPattern pattern).1).toList ++
          (escapePercentList (scanPattern pattern).2.toList ++ []) := by
      simp [toList_append, escapePercent]
    rw [hlist, pyFormat_buildFormat tags dirname filename _ _ h1 h2 h3 hf hd,
      pyFormat_escaped tags]
    simp [Except.map, pyFormat, strMk_append, toList_append, strMk_toList,
      List.append_assoc]
    exact strMk_data_append2 _ _

/-! ## Claim C7 — missing TRACK tag in `do_rename` -/

/-- C7 (counterexample): with the TRACK tag absent, `do_rename` prints the
missing-TRACK diagnostic (first component `true`) but does NOT skip the
file: `failure` only logs and the code continues, so a destination
filename is still produced whenever the pattern resolves — here
`"%f%"` yields `"01.flac"`. -/
theorem c7_missing_track_not_skipped :
    doRename ["TITLE=X"] "%f%" "a" "01.flac" = (true, .ok "01.flac") := by
  simp [doRename, tagsFromLines, tagStep, splitOnChar, strUpper, copyTags, sanitizeTagValue,
    lookupTag, filenameFromTags, scanPattern, scanAux, wordSpan, isWordChar, processSegments,
    tagOfPlaceholder, splitPath, splitext, extOfBase, afterLast, dropTrailingWhile,
    escapePercent, escapePercentList, pyFormat, pyFormatKey]

/-! ## Claim C4 — MissingTag iff a tag-backed placeholder is absent -/

/-- C4: for patterns whose `%\w+%` matches are all recognized
placeholders, `filename_from_tags` fails with the missing-tag error iff
some tag-backed placeholder (`%n%`, `%t%`, `%a%`) refers to a key absent
from the Tag Map, and in that case it never returns a filename (so it
never substitutes an empty string for a missing tag). -/
theorem c4_missing_tag_iff (pattern : String) (tags : Tags) (dirname filename : String)
    (hrec : ∀ seg ∈ (scanPattern pattern).1, (tagOfPlaceholder seg.2).isSome = true) :
    ((∃ T, filenameFromTags pattern (some tags) dirname filename = .error (.missingTag T)) ↔
      ∃ seg ∈ (scanPattern pattern).1, ∃ t, tagOfPlaceholder seg.2 = some t ∧ t ≠ "" ∧
        lookupTag tags t = none) ∧
    ((∃ seg ∈ (scanPattern pattern).1, ∃ t, tagOfPlaceholder seg.2 = some t ∧ t ≠ "" ∧
        lookupTag tags t = none) →
      ∀ s, filenameFromTags pattern (some tags) dirname filename ≠ .ok s) := by
  have hps := processSegments_missing_iff tags dirname filename (scanPattern pattern).1 hrec
  constructor
  · constructor
    · rintro ⟨T, hT⟩
      apply hps.mp
      rcases hproc : processSegments tags dirname filename (scanPattern pattern).1 with e | s
      · refine ⟨T, ?_⟩
        simp only [filenameFromTags, hproc] at hT
        exact hT
      · exfalso
        simp only [filenameFromTags, hproc] at hT
        split at hT
        · rename_i e2 heq
          simp only [Except.error.injEq] at hT
          subst hT
          exact pyFormat_no_missing tags _ T heq
        · exact Except.noConfusion hT
    · intro hex
      obtain ⟨T, hT⟩ := hps.mpr hex
      refine ⟨T, ?_⟩
      simp only [filenameFromTags, hT]
  · intro hex s hs
    obtain ⟨T, hT⟩ := hps.mpr hex
    simp only [filenameFromTags, hT] at hs
    exact Except.noConfusion hs

/-- C4 (witness): `"%n% - %t%"` against a Tag Map holding only `TITLE`
fails with the missing-tag error for `TRACK`. -/
theorem c4_missing_tag_iff_witness :
    ∃ T, filenameFromTags "%n% - %t%" (some [("TITLE", "X")]) "d" "f.flac" =
      .error (.missingTag T) :=
  (c4_missing_tag_iff "%n% - %t%" [("TITLE", "X")] "d" "f.flac"
    (by
      intro seg hs
      simp only [show scanPattern "%n% - %t%" = ([("", "n"), (" - ", "t")], "") from by
        simp [scanPattern, scanAux, wordSpan, isWordChar]] at hs
      simp at hs
      rcases hs with rfl | rfl <;> decide)).1.mpr
    ⟨("", "n"),
      by
        simp only [show scanPattern "%n% - %t%" = ([("", "n"), (" - ", "t")], "") from by
          simp [scanPattern, scanAux, wordSpan, isWordChar]]
        simp,
      "TRACK", by decide, by decide, by decide⟩

/-! ## Claim C5 — escaping and the successful rename path -/

/-- C5 (counterexample): a valid pattern (its only placeholder is the
recognized `%t%`) with a complete Tag Map still fails, because the
literal `%` in the text BEFORE the placeholder is not escaped (only the
tail after the last placeholder is) and trips the later formatting pass:
`resolve` does not escape between-placeholder text. -/
theorem c5_between_percent_not_escaped :
    filenameFromTags "100% zoom %t%" (some [("TITLE", "x")]) "d" "f.flac" =
      .error .formatError := by
  simp [filenameFromTags, scanPattern, scanAux, wordSpan, isWordChar, processSegments,
    tagOfPlaceholder, lookupTag, splitPath, splitext, extOfBase, afterLast, dropTrailingWhile,
    escapePercent, escapePercentList, pyFormat, pyFormatKey]

/-- C5 (amended): for every pattern whose placeholders are all recognized,
whose tag-backed placeholders are all present in the Tag Map, and whose
literal text before/between placeholders — as well as the filename and the
directory basename — contains no `%` (the tail after the last placeholder
may: it is the one part that IS escaped), `resolve` deterministically
returns the fully substituted filename `renderedFilename`: every
placeholder replaced, literal text copied verbatim, the source extension
re-appended when the built name's extension differs. -/
theorem c5_resolve_renders (pattern : String) (tags : Tags) (dirname filename : String)
    (h1 : ∀ seg ∈ (scanPattern pattern).1, (tagOfPlaceholder seg.2).isSome = true)
    (h2 : ∀ seg ∈ (scanPattern pattern).1, ∀ t, tagOfPlaceholder seg.2 = some t → t ≠ "" →
      (lookupTag tags t).isSome = true)
    (h3 : ∀ seg ∈ (scanPattern pattern).1, '%' ∉ seg.1.toList)
    (hf : '%' ∉ filename.toList) (hd : '%' ∉ (splitPath dirname).2.toList)
    (hext : '%' ∉ (splitext filename).2.toList) :
    filenameFromTags pattern (some tags) dirname filename =
      .ok (renderedFilename tags dirname filename pattern) :=
  filenameFromTags_renders pattern tags dirname filename h1 h2 h3 hf hd hext

/-- C5 (witness): concrete scenario — `"%d%/%n% - %t%"` with
`TRACK ↦ 3`, `TITLE ↦ Intro` under `/music/Album` resolves to
`"Album/3 - Intro.flac"`, which is exactly the reference rendering. -/
theorem c5_resolve_renders_witness :
    filenameFromTags "%d%/%n% - %t%" (some [("TRACK", "3"), ("TITLE", "Intro")])
        "/music/Album" "x.flac" =
      .ok (renderedFilename [("TRACK", "3"), ("TITLE", "Intro")] "/music/Album" "x.flac"
        "%d%/%n% - %t%") :=
  c5_resolve_renders "%d%/%n% - %t%" [("TRACK", "3"), ("TITLE", "Intro")] "/music/Album"
    "x.flac"
    (by
      intro seg hs
      simp only [show scanPattern "%d%/%n% - %t%" =
          ([("", "d"), ("/", "n"), (" - ", "t")], "") from by
        simp [scanPattern, scanAux, wordSpan, isWordChar]] at hs
      simp at hs
      rcases hs with rfl | rfl | rfl <;> decide)
    (by
      intro seg hs
      simp only [show scanPattern "%d%/%n% - %t%" =
          ([("", "d"), ("/", "n"), (" - ", "t")], "") from by
        simp [scanPattern, scanAux, wordSpan, isWordChar]] at hs
      simp at hs
      rcases hs with rfl | rfl | rfl <;> decide)
    (by
      intro seg hs
      simp only [show scanPattern "%d%/%n% - %t%" =
          ([("", "d"), ("/", "n"), (" - ", "t")], "") from by
        simp [scanPattern, scanAux, wordSpan, isWordChar]] at hs
      simp at hs
      rcases hs with rfl | rfl | rfl <;> decide)
    (by decide) (by decide) (by decide)

/-- C7 (amended): `do_rename` reports the missing-TRACK condition but does
not skip the file — it proceeds to `filename_from_tags`, and whenever the
pattern's placeholders resolve (all recognized, referenced tags present,
no stray `%` outside the tail) a destination filename IS produced. -/
theorem c7_report_and_continue (decoderLines : List String)
    (pattern dirname filename : String)
    (htrack : lookupTag (tagsFromLines decoderLines) "TRACK" = none)
    (h1 : ∀ seg ∈ (scanPattern (if pattern = "" then osJoin "%d%" "%f%" else pattern)).1,
      (tagOfPlaceholder seg.2).isSome = true)
    (h2 : ∀ seg ∈ (scanPattern (if pattern = "" then osJoin "%d%" "%f%" else pattern)).1,
      ∀ t, tagOfPlaceholder seg.2 = some t → t ≠ "" →
        (lookupTag (tagsFromLines decoderLines) t).isSome = true)
    (h3 : ∀ seg ∈ (scanPattern (if pattern = "" then osJoin "%d%" "%f%" else pattern)).1,
      '%' ∉ seg.1.toList)
    (hf : '%' ∉ filename.toList) (hd : '%' ∉ (splitPath dirname).2.toList)
    (hext : '%' ∉ (splitext filename).2.toList) :
    (doRename decoderLines pattern dirname filename).1 = true ∧
    (doRename decoderLines pattern dirname filename).2 =
      .ok (renderedFilename (tagsFromLines decoderLines) dirname filename
        (if pattern = "" then osJoin "%d%" "%f%" else pattern)) := by
  constructor
  · simp [doRename, htrack]
  · simp only [doRename]
    exact filenameFromTags_renders _ _ _ _ h1 h2 h3 hf hd hext

/-- C7 (witness for the amended theorem): the counterexample input — TRACK
absent, pattern `"%f%"` — reports and still produces `"01.flac"`. -/
theorem c7_report_and_continue_witness :
    (doRename ["TITLE=X"] "%f%" "a" "01.flac").1 = true ∧
    (doRename ["TITLE=X"] "%f%" "a" "01.flac").2 =
      .ok (renderedFilename (tagsFromLines ["TITLE=X"]) "a" "01.flac"
        (if "%f%" = "" then osJoin "%d%" "%f%" else "%f%")) :=
  c7_report_and_continue ["TITLE=X"] "%f%" "a" "01.flac" (by decide)
    (by
      intro seg hs
      simp only [show scanPattern (if "%f%" = "" then osJoin "%d%" "%f%" else "%f%") =
          ([("", "f")], "") from by
        simp [scanPattern, scanAux, wordSpan, isWordChar]] at hs
      simp at hs
      subst hs
      decide)
    (by
      intro seg hs
      simp only [show scanPattern (if "%f%" = "" then osJoin "%d%" "%f%" else "%f%") =
          ([("", "f")], "") from by
        simp [scanPattern, scanAux, wordSpan, isWordChar]] at hs
      simp at hs
      subst hs
      decide)
    (by
      intro seg hs
      simp only [show scanPattern (if "%f%" = "" then osJoin "%d%" "%f%" else "%f%") =
          ([("", "f")], "") from by
        simp [scanPattern, scanAux, wordSpan, isWordChar]] at hs
      simp at hs
      subst hs
      decide)
    (by decide) (by decide) (by decide)

end Whatmp3
